import Mathlib

/-!
Verification of the chainlink persistence core: the log-broadcast consumption
tracker (package `log`, `orm.go`) and the pipeline run store (package
`pipeline`, `orm.go`).  The SQL-backed operations are shallowly embedded as
pure functions over explicit table states; a transaction that fails returns an
error value and no state, mirroring transactional atomicity.
-/

namespace Chainlink

/-! ## Log broadcast ORM (package `log`)

A row of the `log_broadcasts` table.  The 32-byte block hash is abstracted as
a `Nat`; `block_number` is a nullable `int64` column (`Option Int`);
timestamps (`created_at` / `updated_at`, filled by `NOW()`) are `Nat`s
supplied by the caller of each embedded operation. -/
structure LogBroadcastRow where
  blockHash : Nat
  blockNumber : Option Int
  logIndex : Nat
  jobID : Int
  consumed : Bool
  evmChainID : Int
  createdAt : Nat
  updatedAt : Nat
deriving DecidableEq, Repr

/-- A row of the `log_broadcasts_pending` table: one per chain, carrying a
nullable `block_number`. -/
structure PendingRow where
  evmChainID : Int
  blockNumber : Option Int
  createdAt : Nat
  updatedAt : Nat
deriving DecidableEq, Repr

/-- The state owned by the log ORM: both tables. -/
structure LogDB where
  broadcasts : List LogBroadcastRow
  pendingRows : List PendingRow
deriving DecidableEq, Repr

/-- The natural identity of a broadcast, as used in every `WHERE` clause and
in the unique constraint `(job_id, block_hash, log_index, evm_chain_id)`. -/
def broadcastKeyMatches (chain : Int) (blockHash : Nat) (logIndex : Nat)
    (jobID : Int) (r : LogBroadcastRow) : Bool :=
  r.blockHash == blockHash && r.logIndex == logIndex && r.jobID == jobID &&
    r.evmChainID == chain

/-- `WasBroadcastConsumed`: `SELECT consumed FROM log_broadcasts WHERE ...`;
`sql.ErrNoRows` (no matching row) is reported as `false` with no error, so the
embedded operation is total. -/
def WasBroadcastConsumed (db : LogDB) (chain : Int) (blockHash : Nat)
    (logIndex : Nat) (jobID : Int) : Bool :=
  match db.broadcasts.find? (broadcastKeyMatches chain blockHash logIndex jobID) with
  | none => false
  | some r => r.consumed

/-- `CreateBroadcast`: plain `INSERT` of an unconsumed row; a duplicate
identity violates the unique constraint and the insert fails (`none`). -/
def CreateBroadcast (db : LogDB) (chain : Int) (blockHash : Nat)
    (blockNumber : Nat) (logIndex : Nat) (jobID : Int) (now : Nat) :
    Option LogDB :=
  if db.broadcasts.any (broadcastKeyMatches chain blockHash logIndex jobID) then
    none
  else
    some { db with broadcasts := db.broadcasts ++
      [{ blockHash := blockHash, blockNumber := some (Int.ofNat blockNumber),
         logIndex := logIndex, jobID := jobID, consumed := false,
         evmChainID := chain, createdAt := now, updatedAt := now }] }

/-- `MarkBroadcastConsumed`: `INSERT ... ON CONFLICT (job_id, block_hash,
log_index, evm_chain_id) DO UPDATE SET consumed = true, updated_at = NOW()`.
Total: a duplicate takes the update arm instead of raising. -/
def MarkBroadcastConsumed (db : LogDB) (chain : Int) (blockHash : Nat)
    (blockNumber : Nat) (logIndex : Nat) (jobID : Int) (now : Nat) : LogDB :=
  if db.broadcasts.any (broadcastKeyMatches chain blockHash logIndex jobID) then
    { db with broadcasts := db.broadcasts.map fun r =>
        if broadcastKeyMatches chain blockHash logIndex jobID r then
          { r with consumed := true, updatedAt := now }
        else r }
  else
    { db with broadcasts := db.broadcasts ++
      [{ blockHash := blockHash, blockNumber := some (Int.ofNat blockNumber),
         logIndex := logIndex, jobID := jobID, consumed := true,
         evmChainID := chain, createdAt := now, updatedAt := now }] }

/-- `GetPendingMinBlock`: reads the per-chain watermark row; both a missing
row (`sql.ErrNoRows`) and a row holding SQL `NULL` yield `none`. -/
def GetPendingMinBlock (db : LogDB) (chain : Int) : Option Int :=
  match db.pendingRows.find? (fun p => p.evmChainID == chain) with
  | none => none
  | some p => p.blockNumber

/-- `SetPendingMinBlock`: `INSERT ... ON CONFLICT (evm_chain_id) DO UPDATE SET
block_number = ..., updated_at = NOW()`. -/
def SetPendingMinBlock (db : LogDB) (chain : Int) (blockNumber : Option Int)
    (now : Nat) : LogDB :=
  if db.pendingRows.any (fun p => p.evmChainID == chain) then
    { db with pendingRows := db.pendingRows.map fun p =>
        if p.evmChainID == chain then
          { p with blockNumber := blockNumber, updatedAt := now }
        else p }
  else
    { db with pendingRows := db.pendingRows ++
      [{ evmChainID := chain, blockNumber := blockNumber, createdAt := now,
         updatedAt := now }] }

/-- The block numbers the SQL `min(block_number)` in `getUnconsumedMinBlock`
aggregates over: rows of this chain with `consumed = false AND block_number IS
NOT NULL`. -/
def unconsumedBlockNumbers (db : LogDB) (chain : Int) : List Int :=
  db.broadcasts.filterMap fun r =>
    if r.evmChainID == chain && !r.consumed then r.blockNumber else none

/-- `getUnconsumedMinBlock`: `SELECT min(block_number) FROM log_broadcasts
WHERE evm_chain_id = $1 AND consumed = false AND block_number IS NOT NULL`;
the aggregate over an empty set is SQL `NULL`, i.e. `none`. -/
def getUnconsumedMinBlock (db : LogDB) (chain : Int) : Option Int :=
  (unconsumedBlockNumbers db chain).foldr
    (fun n acc => match acc with
      | none => some n
      | some m => some (min n m))
    none

/-- `removeUnconsumed`: `DELETE FROM log_broadcasts WHERE evm_chain_id = $1
AND consumed = false AND block_number IS NOT NULL`. -/
def removeUnconsumed (db : LogDB) (chain : Int) : LogDB :=
  { db with broadcasts := db.broadcasts.filter fun r =>
      !(r.evmChainID == chain && !r.consumed && r.blockNumber.isSome) }

/-- `Reinitialize`: read the unconsumed minimum and the pending watermark; if
nothing unconsumed, return the watermark unchanged; otherwise lower the
watermark to the unconsumed minimum when it is absent or larger, then delete
the unconsumed rows and return the resulting watermark. -/
def Reinitialize (db : LogDB) (chain : Int) (now : Nat) : Option Int × LogDB :=
  match getUnconsumedMinBlock db chain with
  | none => (GetPendingMinBlock db chain, db)
  | some m =>
    match GetPendingMinBlock db chain with
    | none =>
      let db1 := SetPendingMinBlock db chain (some m) now
      (some m, removeUnconsumed db1 chain)
    | some p =>
      if m < p then
        let db1 := SetPendingMinBlock db chain (some m) now
        (some m, removeUnconsumed db1 chain)
      else
        (some p, removeUnconsumed db chain)

/-! ## Pipeline run store (package `pipeline`)

JSON payloads (`output`, `outputs`, `inputs`, `meta`) are abstracted as `Int`
values, with `Option` standing for a Go nil / SQL `NULL`; the operations only
test presence and copy values.  Surrogate ids (`bigserial` run ids, `uuid`
task ids) are `Nat`s; times are `Nat`s with `0` standing for Go's zero time on
`created_at`. -/

/-- Modelled from the spec: the run state set.  The `RunStatus` constants are
code of this repository not under src/ (only `orm.go` referencing
`RunStatusRunning` / `RunStatusSuspended` / `RunStatusCompleted` is); spec
section 3 gives a state set of Running, Suspended and Completed. -/
inductive RunStatus where
  | running
  | suspended
  | completed
deriving DecidableEq, Repr

/-- A row of `pipeline_task_runs`; also the in-memory `TaskRun` struct. -/
structure TaskRun where
  id : Nat
  pipelineRunID : Nat
  type : String
  index : Int
  output : Option Int
  error : Option String
  dotID : String
  createdAt : Nat
  finishedAt : Option Nat
deriving DecidableEq, Repr

/-- Modelled from the spec: `TaskRun.IsPending` is code of this repository
not under src/ (only its callers in `orm.go` are); spec section 3: "a task is
'pending' iff both output and error are absent and finish time is absent". -/
def TaskRun.IsPending (tr : TaskRun) : Bool :=
  tr.output.isNone && tr.error.isNone && tr.finishedAt.isNone

/-- A row of `pipeline_runs`. -/
structure RunRow where
  id : Nat
  pipelineSpecID : Nat
  state : RunStatus
  meta : Option Int
  inputs : Option Int
  outputs : Option Int
  fatalErrors : List (Option String)
  allErrors : List (Option String)
  createdAt : Nat
  finishedAt : Option Nat
deriving DecidableEq, Repr

/-- The in-memory `Run` struct: a run row plus its loaded task runs. -/
structure Run extends RunRow where
  pipelineTaskRuns : List TaskRun
deriving DecidableEq, Repr

/-- Modelled from the spec: `Run.HasErrors` is code of this repository not
under src/ (only its callers in `orm.go` are); per spec section 3 the
fatal-error list "may contain all-empty entries, signifying success", so a run
has errors exactly when some entry is present. -/
def Run.HasErrors (r : Run) : Bool :=
  r.fatalErrors.any fun e => e.isSome

/-- Modelled from the spec: `Run.ByDotID` is code of this repository not
under src/ (only its caller in `StoreRun` is); spec section 3 makes the dot id
"unique per run", so it returns the task run with the given dot id, if any. -/
def ByDotID (trs : List TaskRun) (dotID : String) : Option TaskRun :=
  trs.find? fun t => t.dotID == dotID

/-- The state owned by the pipeline ORM (the `pipeline_specs` table is only
joined for its immutable `dot_dag_source` text, which no claim observes, and
is omitted). -/
structure PipelineDB where
  runs : List RunRow
  taskRuns : List TaskRun
deriving DecidableEq, Repr

/-- The error taxonomy the embedded operations surface: validation failures
(`errors.New` / `errors.Errorf` before any write) and `sql.ErrNoRows`. -/
inductive OrmError where
  | validation (msg : String)
  | notFound
deriving DecidableEq, Repr

/-- Two task rows collide on the upsert key `(pipeline_run_id, dot_id)`. -/
def sameTaskKey (a b : TaskRun) : Bool :=
  a.pipelineRunID == b.pipelineRunID && a.dotID == b.dotID

/-- The `DO UPDATE` arm of the task-run upsert: only `output`, `error` and
`finished_at` change on conflict. -/
def upsertMerge (ex tr : TaskRun) : TaskRun :=
  { ex with output := tr.output, error := tr.error, finishedAt := tr.finishedAt }

/-- What the conflict arm does to one stored row when row `tr` arrives. -/
def conflictUpdate (tr t : TaskRun) : TaskRun :=
  if sameTaskKey t tr then upsertMerge t tr else t

/-- One row of `INSERT INTO pipeline_task_runs ... ON CONFLICT
(pipeline_run_id, dot_id) DO UPDATE SET output = EXCLUDED.output, error =
EXCLUDED.error, finished_at = EXCLUDED.finished_at RETURNING *`: yields the
returned row and the new table. -/
def upsertTaskRun (tbl : List TaskRun) (tr : TaskRun) : TaskRun × List TaskRun :=
  match tbl.find? (fun ex => sameTaskKey ex tr) with
  | some ex => (upsertMerge ex tr, tbl.map (conflictUpdate tr))
  | none => (tr, tbl ++ [tr])

/-- The multi-row task-run upsert statement: rows are processed in statement
order; yields the `RETURNING *` rows in that order and the new table. -/
def upsertTaskRuns (tbl : List TaskRun) : List TaskRun → List TaskRun × List TaskRun
  | [] => ([], tbl)
  | tr :: rest =>
    let (row, tbl1) := upsertTaskRun tbl tr
    let (rows, tbl2) := upsertTaskRuns tbl1 rest
    (row :: rows, tbl2)

/-- The reload-compare-swap loop of `StoreRun`: for each in-memory task run
still pending whose reloaded counterpart (looked up by dot id) is no longer
pending, swap in the reloaded copy and request a restart. -/
def swapPending (reloaded : List TaskRun) : List TaskRun → List TaskRun × Bool
  | [] => ([], false)
  | tr :: rest =>
    let (rest1, restartRest) := swapPending reloaded rest
    if tr.IsPending then
      match ByDotID reloaded tr.dotID with
      | some t =>
        if !t.IsPending then (t :: rest1, true) else (tr :: rest1, restartRest)
      | none => (tr :: rest1, restartRest)
    else (tr :: rest1, restartRest)

/-- `StoreRun`: persist a partially executed run before suspending, or finish
a run.  The unfinished path locks the run row (the embedding is sequential,
so the lock is the transaction boundary itself), reloads the persisted task
rows, swaps in concurrently posted results and requests a restart without
writing anything; with no swap it suspends the run and upserts the task rows.
The finished path validates outputs/errors, writes the final run row and
upserts the task rows. -/
def StoreRun (db : PipelineDB) (run : Run) :
    Except OrmError (Bool × Run × PipelineDB) :=
  if run.finishedAt.isSome then
    if run.outputs.isNone || run.fatalErrors.isEmpty then
      .error (.validation "run must have both Outputs and Errors")
    else
      let runs1 := db.runs.map fun r =>
        if r.id == run.id then
          { r with state := run.state, finishedAt := run.finishedAt,
                   allErrors := run.allErrors, fatalErrors := run.fatalErrors,
                   outputs := run.outputs }
        else r
      let (rows, tbl) := upsertTaskRuns db.taskRuns run.pipelineTaskRuns
      .ok (false, { run with pipelineTaskRuns := rows },
           { runs := runs1, taskRuns := tbl })
  else
    let reloaded := db.taskRuns.filter fun t => t.pipelineRunID == run.id
    let (swapped, restart) := swapPending reloaded run.pipelineTaskRuns
    if restart then
      .ok (true, { run with pipelineTaskRuns := swapped }, db)
    else
      let runs1 := db.runs.map fun r =>
        if r.id == run.id then { r with state := RunStatus.suspended } else r
      let (rows, tbl) := upsertTaskRuns db.taskRuns run.pipelineTaskRuns
      .ok (false, { run with state := RunStatus.suspended,
                             pipelineTaskRuns := rows },
           { runs := runs1, taskRuns := tbl })

/-- The result an asynchronous callback posts for one task: the `OutputDB` /
`ErrorDB` forms of `pipeline.Result`. -/
structure TaskResult where
  output : Option Int
  error : Option String
deriving DecidableEq, Repr

/-- `UpdateTaskRunResult`: select (with a row lock) the run owning the task,
restricted to `state in ('running', 'suspended')` — no row is `sql.ErrNoRows`;
write the task's output/error/finish time; when the run was suspended, flip
it to running, reload the full task list and report `start = true`. -/
def UpdateTaskRunResult (db : PipelineDB) (taskID : Nat) (result : TaskResult)
    (now : Nat) : Except OrmError (Run × Bool × PipelineDB) :=
  match db.taskRuns.find? (fun t => t.id == taskID) with
  | none => .error .notFound
  | some task =>
    match db.runs.find? (fun r => r.id == task.pipelineRunID &&
        (r.state = RunStatus.running || r.state = RunStatus.suspended)) with
    | none => .error .notFound
    | some runRow =>
      let tbl := db.taskRuns.map fun t =>
        if t.id == taskID then
          { t with output := result.output, error := result.error,
                   finishedAt := some now }
        else t
      if runRow.state = RunStatus.suspended then
        let runs1 := db.runs.map fun r =>
          if r.id == runRow.id then { r with state := RunStatus.running } else r
        .ok ({ toRunRow := { runRow with state := RunStatus.running },
               pipelineTaskRuns := tbl.filter fun t =>
                 t.pipelineRunID == runRow.id },
             true, { runs := runs1, taskRuns := tbl })
      else
        .ok ({ toRunRow := runRow, pipelineTaskRuns := [] }, false,
             { runs := db.runs, taskRuns := tbl })

/-- `InsertFinishedRun`: the one-shot path for runs that never suspend.
Validates creation time, finish time, outputs and fatal errors, and that task
results are supplied whenever they would be stored; inserts the run row under
a fresh id (`newID` stands for the sequence value `RETURNING id` yields),
re-keys the task runs, and skips the task rows entirely when
`saveSuccessfulTaskRuns` is false and the run has no errors. -/
def InsertFinishedRun (db : PipelineDB) (run : Run)
    (saveSuccessfulTaskRuns : Bool) (newID : Nat) :
    Except OrmError (Run × PipelineDB) :=
  if run.createdAt == 0 then
    .error (.validation "run.CreatedAt must be set")
  else if run.finishedAt.isNone then
    .error (.validation "run.FinishedAt must be set")
  else if run.outputs.isNone || run.fatalErrors.isEmpty then
    .error (.validation "run must have both Outputs and Errors")
  else if run.pipelineTaskRuns.isEmpty &&
      (saveSuccessfulTaskRuns || run.HasErrors) then
    .error (.validation "must provide task run results")
  else
    let runRow := { run.toRunRow with id := newID }
    let tasks := run.pipelineTaskRuns.map fun t =>
      { t with pipelineRunID := newID }
    if !saveSuccessfulTaskRuns && !run.HasErrors then
      .ok ({ toRunRow := runRow, pipelineTaskRuns := tasks },
           { db with runs := db.runs ++ [runRow] })
    else
      .ok ({ toRunRow := runRow, pipelineTaskRuns := tasks },
           { runs := db.runs ++ [runRow], taskRuns := db.taskRuns ++ tasks })

/-! ## Helper lemmas -/

/-- In a list holding at most one element satisfying `p`, two members
satisfying `p` are equal. -/
theorem countP_le_one_eq_of_mem {α : Type} {p : α → Bool} {l : List α}
    (h : l.countP p ≤ 1) {a b : α} (ha : a ∈ l) (hb : b ∈ l)
    (hpa : p a = true) (hpb : p b = true) : a = b := by
  induction l with
  | nil => cases ha
  | cons x xs ih =>
    rw [List.countP_cons] at h
    rcases List.mem_cons.mp ha with rfl | ha1 <;>
      rcases List.mem_cons.mp hb with rfl | hb1
    · rfl
    · exfalso
      rw [hpa, if_pos rfl] at h
      have h0 : xs.countP p = 0 := by omega
      exact (List.countP_eq_zero.mp h0) b hb1 hpb
    · exfalso
      rw [hpb, if_pos rfl] at h
      have h0 : xs.countP p = 0 := by omega
      exact (List.countP_eq_zero.mp h0) a ha1 hpa
    · exact ih (Nat.le_trans (Nat.le_add_right _ _) h) ha1 hb1

/-! ## C9 -/

/-- C9: `WasBroadcastConsumed` returns true exactly when a row exists for the
identity with `consumed = true`; when no row exists it returns false (total,
no error).  The hypothesis is the table's unique constraint on the identity. -/
theorem WasBroadcastConsumed_iff (db : LogDB) (chain : Int) (bh li : Nat)
    (job : Int)
    (huniq : db.broadcasts.countP (broadcastKeyMatches chain bh li job) ≤ 1) :
    (WasBroadcastConsumed db chain bh li job = true ↔
      ∃ r ∈ db.broadcasts, broadcastKeyMatches chain bh li job r = true ∧
        r.consumed = true) ∧
    ((∀ r ∈ db.broadcasts, broadcastKeyMatches chain bh li job r = false) →
      WasBroadcastConsumed db chain bh li job = false) := by
  constructor
  · constructor
    · intro h
      unfold WasBroadcastConsumed at h
      cases hf : db.broadcasts.find? (broadcastKeyMatches chain bh li job) with
      | none => rw [hf] at h; cases h
      | some r =>
        rw [hf] at h
        exact ⟨r, List.mem_of_find?_eq_some hf, List.find?_some hf, h⟩
    · rintro ⟨r, hr, hkey, hcons⟩
      have hsome : (db.broadcasts.find?
          (broadcastKeyMatches chain bh li job)).isSome :=
        List.find?_isSome.mpr ⟨r, hr, hkey⟩
      obtain ⟨r0, hf⟩ := Option.isSome_iff_exists.mp hsome
      have heq : r0 = r :=
        countP_le_one_eq_of_mem huniq (List.mem_of_find?_eq_some hf) hr
          (List.find?_some hf) hkey
      unfold WasBroadcastConsumed
      rw [hf, heq]
      exact hcons
  · intro habs
    unfold WasBroadcastConsumed
    have hnone : db.broadcasts.find? (broadcastKeyMatches chain bh li job) = none :=
      List.find?_eq_none.mpr fun x hx => by rw [habs x hx]; exact Bool.false_ne_true
    rw [hnone]

/-- Witness for C9 at a concrete one-row store. -/
theorem WasBroadcastConsumed_iff_witness :
    WasBroadcastConsumed
      ⟨[⟨5, some 100, 2, 7, true, 1, 0, 0⟩], []⟩ 1 5 2 7 = true :=
  (WasBroadcastConsumed_iff ⟨[⟨5, some 100, 2, 7, true, 1, 0, 0⟩], []⟩ 1 5 2 7
      (by decide)).1.mpr
    ⟨⟨5, some 100, 2, 7, true, 1, 0, 0⟩, by decide, by decide, rfl⟩

/-! ## C6 -/

/-- The `DO UPDATE` arm of `MarkBroadcastConsumed` preserves the identity
columns, so the key predicate is invariant under it. -/
theorem broadcastKeyMatches_mark_update (chain : Int) (bh li : Nat) (job : Int)
    (now : Nat) (r : LogBroadcastRow) :
    broadcastKeyMatches chain bh li job
      (if broadcastKeyMatches chain bh li job r then
        { r with consumed := true, updatedAt := now } else r) =
    broadcastKeyMatches chain bh li job r := by
  cases h : broadcastKeyMatches chain bh li job r
  · rw [if_neg (by simp [h])]
    exact h
  · rw [if_pos (by simp [h])]
    simpa [broadcastKeyMatches] using h

/-- After `MarkBroadcastConsumed`, every row matching the identity has
`consumed = true` and `updated_at` refreshed to the call's time. -/
theorem MarkBroadcastConsumed_key_rows (db : LogDB) (chain : Int)
    (bh bn li : Nat) (job : Int) (now : Nat) :
    ∀ r ∈ (MarkBroadcastConsumed db chain bh bn li job now).broadcasts,
      broadcastKeyMatches chain bh li job r = true →
        r.consumed = true ∧ r.updatedAt = now := by
  intro r hr hkey
  unfold MarkBroadcastConsumed at hr
  by_cases hany : db.broadcasts.any (broadcastKeyMatches chain bh li job) = true
  · rw [if_pos (by simp [hany])] at hr
    simp only [List.mem_map] at hr
    obtain ⟨r0, _, hfr⟩ := hr
    by_cases h0 : broadcastKeyMatches chain bh li job r0 = true
    · rw [if_pos (by simp [h0])] at hfr
      rw [← hfr]
      exact ⟨rfl, rfl⟩
    · rw [if_neg (by simpa using h0)] at hfr
      rw [← hfr] at hkey
      exact absurd hkey h0
  · rw [if_neg (by simpa using hany)] at hr
    rcases List.mem_append.mp hr with hmem | hnew
    · exact absurd hkey ((List.any_eq_false.mp (by simpa using hany)) r hmem)
    · rcases List.mem_singleton.mp hnew with rfl
      exact ⟨rfl, rfl⟩

/-- `MarkBroadcastConsumed` creates the identity's row when absent and
otherwise leaves the row count for the identity unchanged. -/
theorem MarkBroadcastConsumed_countP (db : LogDB) (chain : Int)
    (bh bn li : Nat) (job : Int) (now : Nat) :
    (MarkBroadcastConsumed db chain bh bn li job now).broadcasts.countP
      (broadcastKeyMatches chain bh li job) =
    if db.broadcasts.countP (broadcastKeyMatches chain bh li job) = 0 then 1
    else db.broadcasts.countP (broadcastKeyMatches chain bh li job) := by
  unfold MarkBroadcastConsumed
  by_cases hany : db.broadcasts.any (broadcastKeyMatches chain bh li job) = true
  · rw [if_pos (by simp [hany])]
    have hpos : 0 < db.broadcasts.countP (broadcastKeyMatches chain bh li job) :=
      List.countP_pos_iff.mpr (List.any_eq_true.mp hany)
    rw [if_neg (by omega)]
    simp only [List.countP_map]
    exact List.countP_congr fun r _ => by
      rw [Function.comp_apply, broadcastKeyMatches_mark_update]
  · rw [if_neg (by simpa using hany)]
    have h0 : db.broadcasts.countP (broadcastKeyMatches chain bh li job) = 0 :=
      List.countP_eq_zero.mpr (List.any_eq_false.mp (by simpa using hany))
    simp only [List.countP_append, h0, if_pos rfl, Nat.zero_add]
    simp [List.countP_cons, broadcastKeyMatches]

/-- C6: marking the same broadcast identity consumed twice leaves exactly one
row for that identity, with `consumed = true` and the update time refreshed
by the second call; the operation is total (a duplicate takes the conflict
arm, never an error).  The hypothesis is the table's unique constraint. -/
theorem MarkBroadcastConsumed_idempotent (db : LogDB) (chain : Int)
    (bh bn bn' li : Nat) (job : Int) (t1 t2 : Nat)
    (huniq : db.broadcasts.countP (broadcastKeyMatches chain bh li job) ≤ 1) :
    (MarkBroadcastConsumed (MarkBroadcastConsumed db chain bh bn li job t1)
        chain bh bn' li job t2).broadcasts.countP
      (broadcastKeyMatches chain bh li job) = 1 ∧
    ∀ r ∈ (MarkBroadcastConsumed (MarkBroadcastConsumed db chain bh bn li job t1)
        chain bh bn' li job t2).broadcasts,
      broadcastKeyMatches chain bh li job r = true →
        r.consumed = true ∧ r.updatedAt = t2 := by
  refine ⟨?_, MarkBroadcastConsumed_key_rows _ chain bh bn' li job t2⟩
  have e1 := MarkBroadcastConsumed_countP db chain bh bn li job t1
  have e2 := MarkBroadcastConsumed_countP
    (MarkBroadcastConsumed db chain bh bn li job t1) chain bh bn' li job t2
  rw [e2, e1]
  rcases (show db.broadcasts.countP (broadcastKeyMatches chain bh li job) = 0 ∨
      db.broadcasts.countP (broadcastKeyMatches chain bh li job) = 1 from by
    omega) with h | h <;> simp [h]

/-- Witness for C6: marking twice on an initially empty store. -/
theorem MarkBroadcastConsumed_idempotent_witness :
    (MarkBroadcastConsumed (MarkBroadcastConsumed ⟨[], []⟩ 1 5 100 2 7 10)
        1 5 100 2 7 20).broadcasts.countP
      (broadcastKeyMatches 1 5 2 7) = 1 ∧
    ∀ r ∈ (MarkBroadcastConsumed (MarkBroadcastConsumed ⟨[], []⟩ 1 5 100 2 7 10)
        1 5 100 2 7 20).broadcasts,
      broadcastKeyMatches 1 5 2 7 r = true →
        r.consumed = true ∧ r.updatedAt = 20 :=
  MarkBroadcastConsumed_idempotent ⟨[], []⟩ 1 5 100 100 2 7 10 20 (by decide)

/-! ## Reinitialize helper lemmas -/

/-- `SetPendingMinBlock` touches only the pending table. -/
theorem SetPendingMinBlock_broadcasts (db : LogDB) (chain : Int)
    (v : Option Int) (now : Nat) :
    (SetPendingMinBlock db chain v now).broadcasts = db.broadcasts := by
  unfold SetPendingMinBlock
  split <;> rfl

/-- `removeUnconsumed` touches only the broadcast table. -/
theorem removeUnconsumed_pendingRows (db : LogDB) (chain : Int) :
    (removeUnconsumed db chain).pendingRows = db.pendingRows := rfl

/-- Reading the watermark back after writing it yields the written value. -/
theorem GetPendingMinBlock_set (db : LogDB) (chain : Int) (v : Option Int)
    (now : Nat) :
    GetPendingMinBlock (SetPendingMinBlock db chain v now) chain = v := by
  unfold GetPendingMinBlock SetPendingMinBlock
  by_cases hany : db.pendingRows.any (fun p => p.evmChainID == chain) = true
  · rw [if_pos (by simp [hany])]
    simp only [List.find?_map]
    obtain ⟨p0, hp0, hkey⟩ := List.any_eq_true.mp hany
    have heq : ((fun q : PendingRow => q.evmChainID == chain) ∘ fun q =>
        if q.evmChainID == chain then
          { q with blockNumber := v, updatedAt := now } else q) =
        fun q : PendingRow => q.evmChainID == chain := by
      funext p
      simp only [Function.comp_apply]
      by_cases hp : (p.evmChainID == chain) = true
      · rw [if_pos hp]
      · rw [if_neg hp]
    rw [heq]
    have hsome : (db.pendingRows.find? fun p => p.evmChainID == chain).isSome :=
      List.find?_isSome.mpr ⟨p0, hp0, hkey⟩
    obtain ⟨q, hq⟩ := Option.isSome_iff_exists.mp hsome
    rw [hq]
    have hqkey : q.evmChainID = chain := by simpa using List.find?_some hq
    simp [hqkey]
  · rw [if_neg (by simpa using hany)]
    have hnone : db.pendingRows.find? (fun p => p.evmChainID == chain) = none :=
      List.find?_eq_none.mpr (List.any_eq_false.mp (by simpa using hany))
    rw [List.find?_append, hnone]
    simp

/-- A row whose block number is absent is invisible to the aggregate of
`getUnconsumedMinBlock`. -/
theorem unconsumedBlockNumbers_cons_none (db : LogDB) (chain : Int)
    (r : LogBroadcastRow) (hbn : r.blockNumber = none) :
    unconsumedBlockNumbers ⟨r :: db.broadcasts, db.pendingRows⟩ chain =
      unconsumedBlockNumbers db chain := by
  unfold unconsumedBlockNumbers
  rw [List.filterMap_cons]
  by_cases h : (r.evmChainID == chain && !r.consumed) = true
  · simp [h, hbn]
  · simp [h]

/-- No not-yet-consumed row with a present block number survives
`removeUnconsumed`. -/
theorem countP_removeUnconsumed (db : LogDB) (chain : Int) :
    (removeUnconsumed db chain).broadcasts.countP
      (fun r => r.evmChainID == chain && !r.consumed && r.blockNumber.isSome)
      = 0 := by
  unfold removeUnconsumed
  rw [List.countP_filter]
  have : (fun r : LogBroadcastRow =>
      (r.evmChainID == chain && !r.consumed && r.blockNumber.isSome) &&
      !(r.evmChainID == chain && !r.consumed && r.blockNumber.isSome)) =
      fun _ => false := funext fun r => Bool.and_not_self _
  rw [this, List.countP_false]
  rfl

/-- After `removeUnconsumed`, the aggregate of `getUnconsumedMinBlock` is
empty, so the minimum is absent. -/
theorem getUnconsumedMinBlock_removeUnconsumed (db : LogDB) (chain : Int) :
    getUnconsumedMinBlock (removeUnconsumed db chain) chain = none := by
  have hnil : unconsumedBlockNumbers (removeUnconsumed db chain) chain = [] := by
    unfold unconsumedBlockNumbers removeUnconsumed
    rw [List.filterMap_eq_nil_iff]
    intro r hr
    have hkeep := List.of_mem_filter hr
    by_cases h : (r.evmChainID == chain && !r.consumed) = true
    · have : r.blockNumber.isSome = false := by
        by_contra hs
        rw [h] at hkeep
        simp at hkeep hs
        simp [hs] at hkeep
      rw [if_pos h]
      exact Option.not_isSome_iff_eq_none.mp (by simp [this])
    · rw [if_neg h]
  unfold getUnconsumedMinBlock
  rw [hnil]
  rfl

/-- `removeUnconsumed` is the embedded `DELETE` filter. -/
theorem removeUnconsumed_broadcasts (db : LogDB) (chain : Int) :
    (removeUnconsumed db chain).broadcasts = db.broadcasts.filter
      (fun r => !(r.evmChainID == chain && !r.consumed &&
        r.blockNumber.isSome)) := rfl

/-- Deleting broadcasts does not move the watermark. -/
theorem GetPendingMinBlock_removeUnconsumed (db : LogDB) (c1 c2 : Int) :
    GetPendingMinBlock (removeUnconsumed db c1) c2 =
      GetPendingMinBlock db c2 := rfl

/-! ## C4 -/

/-- C4 (amended): with no unconsumed broadcast carrying a block number the
watermark is returned unchanged and nothing is deleted; otherwise, with `m`
the minimum unconsumed block number, the watermark is lowered to `m` exactly
when it is absent or greater than `m`, the write happening before the delete
of every not-yet-consumed row of the chain whose block number is present (an
unconsumed row with an absent block number is kept, see
`Reinitialize_deletes_not_all_unconsumed_counterexample`), and the returned
value is the resulting watermark. -/
theorem Reinitialize_spec (db : LogDB) (chain : Int) (now : Nat) :
    (getUnconsumedMinBlock db chain = none →
      Reinitialize db chain now = (GetPendingMinBlock db chain, db)) ∧
    (∀ m, getUnconsumedMinBlock db chain = some m →
      (( Reinitialize db chain now).2.broadcasts = db.broadcasts.filter
          (fun r => !(r.evmChainID == chain && !r.consumed &&
            r.blockNumber.isSome)) ∧
        ( Reinitialize db chain now).1 =
          GetPendingMinBlock ( Reinitialize db chain now).2 chain ∧
        ((GetPendingMinBlock db chain = none ∨
            (∃ p, GetPendingMinBlock db chain = some p ∧ m < p)) →
          (( Reinitialize db chain now).2 =
            removeUnconsumed (SetPendingMinBlock db chain (some m) now) chain ∧
           GetPendingMinBlock ( Reinitialize db chain now).2 chain = some m)) ∧
        (∀ p, GetPendingMinBlock db chain = some p → ¬ m < p →
          Reinitialize db chain now = (some p, removeUnconsumed db chain)))) := by
  constructor
  · intro h
    simp only [ Reinitialize, h]
  · intro m hm
    cases hp : GetPendingMinBlock db chain with
    | none =>
      simp only [ Reinitialize, hm, hp]
      refine ⟨?_, ?_, ?_, ?_⟩
      · rw [removeUnconsumed_broadcasts, SetPendingMinBlock_broadcasts]
      · rw [GetPendingMinBlock_removeUnconsumed, GetPendingMinBlock_set]
      · intro _
        exact ⟨by trivial, by rw [GetPendingMinBlock_removeUnconsumed,
          GetPendingMinBlock_set]⟩
      · intro p hcontra
        cases hcontra
    | some p =>
      by_cases hlt : m < p
      · simp only [ Reinitialize, hm, hp, if_pos hlt]
        refine ⟨?_, ?_, ?_, ?_⟩
        · rw [removeUnconsumed_broadcasts, SetPendingMinBlock_broadcasts]
        · rw [GetPendingMinBlock_removeUnconsumed, GetPendingMinBlock_set]
        · intro _
          exact ⟨by trivial, by rw [GetPendingMinBlock_removeUnconsumed,
            GetPendingMinBlock_set]⟩
        · intro p' hp' hnlt
          cases hp'
          exact absurd hlt hnlt
      · simp only [ Reinitialize, hm, hp, if_neg hlt]
        refine ⟨?_, ?_, ?_, ?_⟩
        · rw [removeUnconsumed_broadcasts]
        · rw [GetPendingMinBlock_removeUnconsumed, hp]
        · rintro (hc | ⟨p', hp', hlt'⟩)
          · cases hc
          · cases hp'
            exact absurd hlt' hlt
        · intro p' hp' _
          cases hp'
          rfl

/-- Counterexample to C4 as stated: a store holding, for chain 1, an
unconsumed broadcast at block 50 and an unconsumed broadcast whose block
number is absent.  `Reinitialize` takes its delete branch (the watermark is
lowered to 50), yet an unconsumed broadcast row of the chain remains, so the
claim's "deletes all not-yet-consumed broadcast rows for the chain" is false
of the program: the `DELETE` filters on `block_number IS NOT NULL`. -/
theorem Reinitialize_deletes_not_all_unconsumed_counterexample :
    ( Reinitialize ⟨[⟨5, some 50, 0, 7, false, 1, 0, 0⟩,
        ⟨9, none, 1, 3, false, 1, 0, 0⟩], [⟨1, some 80, 0, 0⟩]⟩ 1 9).1 =
      some 50 ∧
    ¬ (( Reinitialize ⟨[⟨5, some 50, 0, 7, false, 1, 0, 0⟩,
        ⟨9, none, 1, 3, false, 1, 0, 0⟩], [⟨1, some 80, 0, 0⟩]⟩
          1 9).2.broadcasts.countP
        (fun r => r.evmChainID == 1 && !r.consumed) = 0) := by
  decide

/-- Witness for C4 on a store with one unconsumed broadcast at block 50 and a
watermark of 80 (the spec's concrete scenario B): the watermark is lowered to
50 and the row deleted. -/
theorem Reinitialize_spec_witness :
    ( Reinitialize ⟨[⟨5, some 50, 0, 7, false, 1, 0, 0⟩],
        [⟨1, some 80, 0, 0⟩]⟩ 1 9).2 =
      removeUnconsumed (SetPendingMinBlock ⟨[⟨5, some 50, 0, 7, false, 1, 0, 0⟩],
        [⟨1, some 80, 0, 0⟩]⟩ 1 (some 50) 9) 1 ∧
    GetPendingMinBlock ( Reinitialize ⟨[⟨5, some 50, 0, 7, false, 1, 0, 0⟩],
        [⟨1, some 80, 0, 0⟩]⟩ 1 9).2 1 = some 50 :=
  ((Reinitialize_spec ⟨[⟨5, some 50, 0, 7, false, 1, 0, 0⟩],
      [⟨1, some 80, 0, 0⟩]⟩ 1 9).2 50 (by decide)).2.2.1
    (Or.inr ⟨80, by decide, by decide⟩)

/-! ## C10 -/

/-- An unconsumed broadcast row with an absent block number never contributes
to `getUnconsumedMinBlock`, survives `removeUnconsumed`, and leaves the
watermark `Reinitialize` returns unchanged while itself surviving the
cleanup. -/
theorem Reinitialize_ignores_absent_blockNumber (db : LogDB) (chain : Int)
    (now : Nat) (r : LogBroadcastRow) (hbn : r.blockNumber = none) :
    getUnconsumedMinBlock ⟨r :: db.broadcasts, db.pendingRows⟩ chain =
      getUnconsumedMinBlock db chain ∧
    r ∈ (removeUnconsumed ⟨r :: db.broadcasts, db.pendingRows⟩ chain).broadcasts ∧
    ( Reinitialize ⟨r :: db.broadcasts, db.pendingRows⟩ chain now).1 =
      ( Reinitialize db chain now).1 ∧
    r ∈ ( Reinitialize ⟨r :: db.broadcasts, db.pendingRows⟩ chain now).2.broadcasts := by
  have hmin : getUnconsumedMinBlock ⟨r :: db.broadcasts, db.pendingRows⟩ chain =
      getUnconsumedMinBlock db chain := by
    unfold getUnconsumedMinBlock
    rw [unconsumedBlockNumbers_cons_none db chain r hbn]
  have hget : GetPendingMinBlock ⟨r :: db.broadcasts, db.pendingRows⟩ chain =
      GetPendingMinBlock db chain := rfl
  have hkeep : ∀ (l : List LogBroadcastRow) (p : List PendingRow),
      r ∈ (removeUnconsumed ⟨r :: l, p⟩ chain).broadcasts := by
    intro l p
    rw [removeUnconsumed_broadcasts]
    rw [List.filter_cons, if_pos (by simp [hbn])]
    exact List.mem_cons_self _ _
  refine ⟨hmin, hkeep db.broadcasts db.pendingRows, ?_, ?_⟩
  · cases hU : getUnconsumedMinBlock db chain with
    | none => simp only [ Reinitialize, hmin, hU]; exact hget
    | some m =>
      cases hP : GetPendingMinBlock db chain with
      | none => simp only [ Reinitialize, hmin, hU, hget, hP]
      | some p =>
        by_cases hlt : m < p <;>
          simp only [ Reinitialize, hmin, hU, hget, hP, hlt, if_true, if_false,
            ite_true, ite_false]
  · cases hU : getUnconsumedMinBlock db chain with
    | none =>
      simp only [ Reinitialize, hmin, hU]
      exact List.mem_cons_self _ _
    | some m =>
      cases hP : GetPendingMinBlock db chain with
      | none =>
        simp only [ Reinitialize, hmin, hU, hget, hP]
        have hb : (SetPendingMinBlock ⟨r :: db.broadcasts, db.pendingRows⟩
            chain (some m) now).broadcasts = r :: db.broadcasts :=
          SetPendingMinBlock_broadcasts _ _ _ _
        rw [removeUnconsumed_broadcasts, hb, List.filter_cons,
          if_pos (by simp [hbn])]
        exact List.mem_cons_self _ _
      | some p =>
        by_cases hlt : m < p
        · simp only [ Reinitialize, hmin, hU, hget, hP, if_pos hlt]
          have hb : (SetPendingMinBlock ⟨r :: db.broadcasts, db.pendingRows⟩
              chain (some m) now).broadcasts = r :: db.broadcasts :=
            SetPendingMinBlock_broadcasts _ _ _ _
          rw [removeUnconsumed_broadcasts, hb, List.filter_cons,
            if_pos (by simp [hbn])]
          exact List.mem_cons_self _ _
        · simp only [ Reinitialize, hmin, hU, hget, hP, if_neg hlt]
          exact hkeep db.broadcasts db.pendingRows

/-- Witness for C10: an unconsumed row with `block_number` NULL alongside one
with block 50. -/
theorem Reinitialize_ignores_absent_blockNumber_witness :
    getUnconsumedMinBlock ⟨(⟨9, none, 1, 3, false, 1, 0, 0⟩ : LogBroadcastRow) ::
        [⟨5, some 50, 0, 7, false, 1, 0, 0⟩], []⟩ 1 =
      getUnconsumedMinBlock ⟨[⟨5, some 50, 0, 7, false, 1, 0, 0⟩], []⟩ 1 ∧
    (⟨9, none, 1, 3, false, 1, 0, 0⟩ : LogBroadcastRow) ∈
      (removeUnconsumed ⟨(⟨9, none, 1, 3, false, 1, 0, 0⟩ : LogBroadcastRow) ::
        [⟨5, some 50, 0, 7, false, 1, 0, 0⟩], []⟩ 1).broadcasts ∧
    ( Reinitialize ⟨(⟨9, none, 1, 3, false, 1, 0, 0⟩ : LogBroadcastRow) ::
        [⟨5, some 50, 0, 7, false, 1, 0, 0⟩], []⟩ 1 9).1 =
      ( Reinitialize ⟨[⟨5, some 50, 0, 7, false, 1, 0, 0⟩], []⟩ 1 9).1 ∧
    (⟨9, none, 1, 3, false, 1, 0, 0⟩ : LogBroadcastRow) ∈
      ( Reinitialize ⟨(⟨9, none, 1, 3, false, 1, 0, 0⟩ : LogBroadcastRow) ::
        [⟨5, some 50, 0, 7, false, 1, 0, 0⟩], []⟩ 1 9).2.broadcasts :=
  Reinitialize_ignores_absent_blockNumber
    ⟨[⟨5, some 50, 0, 7, false, 1, 0, 0⟩], []⟩ 1 9
    ⟨9, none, 1, 3, false, 1, 0, 0⟩ rfl

/-! ## C5 -/

/-- An absent minimum means the aggregate saw no row at all. -/
theorem getUnconsumedMinBlock_eq_none_iff (db : LogDB) (chain : Int) :
    getUnconsumedMinBlock db chain = none ↔
      unconsumedBlockNumbers db chain = [] := by
  unfold getUnconsumedMinBlock
  cases h : unconsumedBlockNumbers db chain with
  | nil => simp
  | cons x xs =>
    simp only [List.foldr_cons]
    constructor
    · intro hc
      exfalso
      cases hxs : xs.foldr (fun n acc => match acc with
          | none => some n
          | some m => some (min n m)) (none : Option Int) <;>
        rw [hxs] at hc <;> simp at hc
    · intro hc
      cases hc

/-- If the aggregate of `getUnconsumedMinBlock` saw no row, the store holds no
unconsumed broadcast with a present block number for the chain. -/
theorem countP_eq_zero_of_no_unconsumed (db : LogDB) (chain : Int)
    (h : unconsumedBlockNumbers db chain = []) :
    db.broadcasts.countP
      (fun r => r.evmChainID == chain && !r.consumed && r.blockNumber.isSome)
      = 0 := by
  rw [List.countP_eq_zero]
  intro r hr hpred
  have hf := (List.filterMap_eq_nil_iff.mp h) r hr
  rw [Bool.and_eq_true, Bool.and_eq_true] at hpred
  obtain ⟨⟨hchain, hcons⟩, hsome⟩ := hpred
  rw [if_pos (by rw [hchain, hcons]; rfl)] at hf
  rw [hf] at hsome
  cases hsome

/-- Counterexample to C5 as stated: a store holding one unconsumed broadcast
whose block number is absent.  `Reinitialize` leaves that row in place, so
after the first call an unconsumed broadcast row remains. -/
theorem Reinitialize_leaves_unconsumed_counterexample :
    ¬ (( Reinitialize ⟨[⟨0, none, 0, 1, false, 1, 0, 0⟩], []⟩ 1 0).2.broadcasts.countP
        (fun r => r.evmChainID == 1 && !r.consumed) = 0) := by
  decide

/-- C5 (amended): a second `Reinitialize` with no intervening delivery or
consumption returns the same watermark and changes nothing, and after the
first call zero unconsumed broadcast rows with a present block number remain
(an unconsumed row whose block number is absent survives, see
`Reinitialize_ignores_absent_blockNumber`). -/
theorem Reinitialize_idempotent (db : LogDB) (chain : Int) (now now' : Nat) :
    Reinitialize ( Reinitialize db chain now).2 chain now' =
      (( Reinitialize db chain now).1, ( Reinitialize db chain now).2) ∧
    ( Reinitialize db chain now).2.broadcasts.countP
      (fun r => r.evmChainID == chain && !r.consumed && r.blockNumber.isSome)
      = 0 := by
  have hmain : getUnconsumedMinBlock ( Reinitialize db chain now).2 chain = none ∧
      GetPendingMinBlock ( Reinitialize db chain now).2 chain =
        ( Reinitialize db chain now).1 ∧
      ( Reinitialize db chain now).2.broadcasts.countP
        (fun r => r.evmChainID == chain && !r.consumed && r.blockNumber.isSome)
        = 0 := by
    cases hU : getUnconsumedMinBlock db chain with
    | none =>
      refine ⟨by simp only [ Reinitialize, hU], by simp only [ Reinitialize, hU], ?_⟩
      simp only [ Reinitialize, hU]
      exact countP_eq_zero_of_no_unconsumed db chain
        ((getUnconsumedMinBlock_eq_none_iff db chain).mp hU)
    | some m =>
      cases hP : GetPendingMinBlock db chain with
      | none =>
        simp only [ Reinitialize, hU, hP]
        exact ⟨getUnconsumedMinBlock_removeUnconsumed _ _,
          by rw [GetPendingMinBlock_removeUnconsumed, GetPendingMinBlock_set],
          countP_removeUnconsumed _ _⟩
      | some p =>
        by_cases hlt : m < p
        · simp only [ Reinitialize, hU, hP, if_pos hlt]
          exact ⟨getUnconsumedMinBlock_removeUnconsumed _ _,
            by rw [GetPendingMinBlock_removeUnconsumed, GetPendingMinBlock_set],
            countP_removeUnconsumed _ _⟩
        · simp only [ Reinitialize, hU, hP, if_neg hlt]
          exact ⟨getUnconsumedMinBlock_removeUnconsumed _ _,
            by rw [GetPendingMinBlock_removeUnconsumed, hP],
            countP_removeUnconsumed _ _⟩
  obtain ⟨h1, h2, h3⟩ := hmain
  refine ⟨?_, h3⟩
  generalize hs : Reinitialize db chain now = s at h1 h2 ⊢
  obtain ⟨w, s1⟩ := s
  simp only [ Reinitialize, h1, h2]

/-! ## C2 -/

/-- C2: `UpdateTaskRunResult` proceeds only when the task's owning run is
Running or Suspended; an unknown task, an unknown run, or a run in any other
state (e.g. Completed) yields the not-found outcome, never a silent success.
When it proceeds it writes the task's output, error and finish time, and
exactly when the run was Suspended it flips the run to Running and returns
`start = true` with the full reloaded task list (a Running run returns
`start = false` and no task list). -/
theorem UpdateTaskRunResult_spec (db : PipelineDB) (taskID : Nat)
    (result : TaskResult) (now : Nat) :
    (db.taskRuns.find? (fun t => t.id == taskID) = none →
      UpdateTaskRunResult db taskID result now = .error .notFound) ∧
    (∀ task, db.taskRuns.find? (fun t => t.id == taskID) = some task →
      ((∀ r ∈ db.runs, r.id = task.pipelineRunID →
          r.state = RunStatus.completed) →
        UpdateTaskRunResult db taskID result now = .error .notFound) ∧
      (db.runs.find? (fun r => r.id == task.pipelineRunID &&
          (r.state = RunStatus.running || r.state = RunStatus.suspended)) =
            none →
        UpdateTaskRunResult db taskID result now = .error .notFound) ∧
      (∀ runRow, db.runs.find? (fun r => r.id == task.pipelineRunID &&
          (r.state = RunStatus.running || r.state = RunStatus.suspended)) =
            some runRow →
        (runRow.state = RunStatus.suspended →
          UpdateTaskRunResult db taskID result now = .ok
            (⟨{ runRow with state := RunStatus.running },
              (db.taskRuns.map fun t => if t.id == taskID then
                { t with output := result.output, error := result.error,
                         finishedAt := some now } else t).filter
                (fun t => t.pipelineRunID == runRow.id)⟩,
             true,
             ⟨db.runs.map fun r => if r.id == runRow.id then
                { r with state := RunStatus.running } else r,
              db.taskRuns.map fun t => if t.id == taskID then
                { t with output := result.output, error := result.error,
                         finishedAt := some now } else t⟩)) ∧
        (runRow.state = RunStatus.running →
          UpdateTaskRunResult db taskID result now = .ok
            (⟨runRow, []⟩, false,
             ⟨db.runs,
              db.taskRuns.map fun t => if t.id == taskID then
                { t with output := result.output, error := result.error,
                         finishedAt := some now } else t⟩)))) := by
  constructor
  · intro h
    simp only [UpdateTaskRunResult, h]
  · intro task htask
    refine ⟨?_, ?_, ?_⟩
    · intro hall
      have hnone : db.runs.find? (fun r => r.id == task.pipelineRunID &&
          (r.state = RunStatus.running || r.state = RunStatus.suspended)) =
            none := by
        rw [List.find?_eq_none]
        intro r hr hp
        rw [Bool.and_eq_true] at hp
        obtain ⟨hid, hst⟩ := hp
        have hcomp := hall r hr (by simpa using hid)
        rw [hcomp] at hst
        simp at hst
      simp only [UpdateTaskRunResult, htask, hnone]
    · intro h
      simp only [UpdateTaskRunResult, htask, h]
    · intro runRow hrun
      constructor
      · intro hsusp
        simp only [UpdateTaskRunResult, htask, hrun, hsusp, if_true, reduceIte]
      · intro hrunning
        simp only [UpdateTaskRunResult, htask, hrun, hrunning]
        rw [if_neg (by decide : ¬(RunStatus.running = RunStatus.suspended))]

/-- Concrete evaluation check for the resume path of `UpdateTaskRunResult`:
a suspended run with one pending task resumes with the result stored. -/
theorem UpdateTaskRunResult_resume_example :
    UpdateTaskRunResult
      ⟨[⟨10, 1, RunStatus.suspended, none, none, none, [], [], 1, none⟩],
       [⟨77, 10, "bridge", 0, none, none, "ds1", 1, none⟩]⟩ 77 ⟨some 42, none⟩ 9 =
      .ok
        (⟨⟨10, 1, RunStatus.running, none, none, none, [], [], 1, none⟩,
          [⟨77, 10, "bridge", 0, some 42, none, "ds1", 1, some 9⟩]⟩,
         true,
         ⟨[⟨10, 1, RunStatus.running, none, none, none, [], [], 1, none⟩],
          [⟨77, 10, "bridge", 0, some 42, none, "ds1", 1, some 9⟩]⟩) := rfl

/-! ## C8 -/

/-- C8: `InsertFinishedRun` requires creation time, finish time, outputs and
fatal-error list each individually set; any missing one yields a validation
error, and the error is returned before any write (the embedded transaction
returns no state on error). -/
theorem InsertFinishedRun_validation (db : PipelineDB) (run : Run)
    (save : Bool) (newID : Nat)
    (h : run.createdAt = 0 ∨ run.finishedAt = none ∨ run.outputs = none ∨
      run.fatalErrors = []) :
    ∃ msg, InsertFinishedRun db run save newID =
      .error (.validation msg) := by
  unfold InsertFinishedRun
  split
  · exact ⟨_, rfl⟩
  · split
    · exact ⟨_, rfl⟩
    · split
      · exact ⟨_, rfl⟩
      · split
        · exact ⟨_, rfl⟩
        · exfalso
          rename_i h1 h2 h3 _
          rcases h with hc | hf | ho | he
          · exact h1 (by simp [hc])
          · exact h2 (by simp [hf])
          · exact h3 (by simp [ho])
          · exact h3 (by simp [he])

/-- Witness for C8: a run with its creation time unset (all other fields
present) fails validation. -/
theorem InsertFinishedRun_validation_witness :
    ∃ msg, InsertFinishedRun ⟨[], []⟩
      ⟨⟨0, 1, RunStatus.completed, none, none, some 7, [none], [none], 0,
        some 9⟩, []⟩ true 1 = .error (.validation msg) :=
  InsertFinishedRun_validation ⟨[], []⟩
    ⟨⟨0, 1, RunStatus.completed, none, none, some 7, [none], [none], 0,
      some 9⟩, []⟩ true 1 (Or.inl rfl)

/-! ## C7 -/

/-- C7: with the validations satisfied, `InsertFinishedRun` with
`saveSuccessfulTaskRuns = false` on a run with no errors persists the run row
and zero task rows; a run that has errors always has its task rows persisted,
whatever the flag. -/
theorem InsertFinishedRun_taskRows (db : PipelineDB) (run : Run) (newID : Nat)
    (hc : ¬ run.createdAt = 0) (hf : ¬ run.finishedAt = none)
    (ho : ¬ run.outputs = none) (he : ¬ run.fatalErrors = []) :
    (run.HasErrors = false →
      InsertFinishedRun db run false newID = .ok
        (⟨{ run.toRunRow with id := newID },
          run.pipelineTaskRuns.map fun t => { t with pipelineRunID := newID }⟩,
         { db with runs := db.runs ++ [{ run.toRunRow with id := newID }] })) ∧
    (∀ save, run.HasErrors = true → ¬ run.pipelineTaskRuns = [] →
      InsertFinishedRun db run save newID = .ok
        (⟨{ run.toRunRow with id := newID },
          run.pipelineTaskRuns.map fun t => { t with pipelineRunID := newID }⟩,
         ⟨db.runs ++ [{ run.toRunRow with id := newID }],
          db.taskRuns ++ run.pipelineTaskRuns.map fun t =>
            { t with pipelineRunID := newID }⟩)) := by
  have g1 : ¬ ((run.createdAt == 0) = true) := by simp [hc]
  have g2 : ¬ (run.finishedAt.isNone = true) := by
    simp [Option.isSome_iff_ne_none, hf]
  have g3 : ¬ ((run.outputs.isNone || run.fatalErrors.isEmpty) = true) := by
    simp [Option.isSome_iff_ne_none, List.isEmpty_iff, ho, he]
  constructor
  · intro hErr
    unfold InsertFinishedRun
    rw [if_neg g1, if_neg g2, if_neg g3,
      if_neg (by simp [hErr]), if_pos (by simp [hErr])]
  · intro save hErr htasks
    unfold InsertFinishedRun
    rw [if_neg g1, if_neg g2, if_neg g3,
      if_neg (by simp [List.isEmpty_iff, htasks]),
      if_neg (by simp [hErr])]

/-- Witness for C7: the flag-off no-errors call stores the run row and no
task rows even though the run carries one successful task. -/
theorem InsertFinishedRun_taskRows_witness :
    InsertFinishedRun ⟨[], []⟩
      ⟨⟨0, 1, RunStatus.completed, none, none, some 7, [none], [none], 3,
          some 9⟩,
        [⟨77, 0, "median", 0, some 7, none, "m1", 3, some 8⟩]⟩ false 1 = .ok
      (⟨{ (⟨⟨0, 1, RunStatus.completed, none, none, some 7, [none], [none], 3,
            some 9⟩,
          [⟨77, 0, "median", 0, some 7, none, "m1", 3, some 8⟩]⟩ :
            Run).toRunRow with id := 1 },
        (⟨⟨0, 1, RunStatus.completed, none, none, some 7, [none], [none], 3,
            some 9⟩,
          [⟨77, 0, "median", 0, some 7, none, "m1", 3, some 8⟩]⟩ :
            Run).pipelineTaskRuns.map fun t => { t with pipelineRunID := 1 }⟩,
       { (⟨[], []⟩ : PipelineDB) with runs := (⟨[], []⟩ : PipelineDB).runs ++
          [{ (⟨⟨0, 1, RunStatus.completed, none, none, some 7, [none], [none],
              3, some 9⟩,
            [⟨77, 0, "median", 0, some 7, none, "m1", 3, some 8⟩]⟩ :
              Run).toRunRow with id := 1 }] }) :=
  (InsertFinishedRun_taskRows ⟨[], []⟩
      ⟨⟨0, 1, RunStatus.completed, none, none, some 7, [none], [none], 3,
          some 9⟩,
        [⟨77, 0, "median", 0, some 7, none, "m1", 3, some 8⟩]⟩ 1
      (by decide) (by decide) (by decide) (by decide)).1 (by decide)

/-! ## C3

The run-row lock (`SELECT ... FOR UPDATE`) makes `StoreRun` and
`UpdateTaskRunResult` mutually exclusive for one run id, so the concurrent
executions are exactly the two transaction serializations, modelled as the
two orders of applying the embedded operations. -/

/-- C3: for a run with exactly one pending task, racing `StoreRun` (suspend
path) against `UpdateTaskRunResult` for that task ends, in either
serialization, with the run Running, the posted result persisted in the task
row (never overwritten by the suspend's upsert), and the continue signal
delivered to exactly one caller: order A (suspend first) stores the pending
row, suspends, then the callback flips the run to Running with
`start = true`; order B (callback first) stores the result with
`start = false` and `StoreRun` then swaps the posted row in and returns
`restart = true` without writing. -/
theorem StoreRun_UpdateTaskRunResult_race (runRow : RunRow) (trRow : TaskRun)
    (result : TaskResult) (now : Nat)
    (hstate : runRow.state = RunStatus.running)
    (hfin : runRow.finishedAt = none)
    (hrid : trRow.pipelineRunID = runRow.id)
    (hout : trRow.output = none) (herr : trRow.error = none)
    (htfin : trRow.finishedAt = none) :
    (StoreRun ⟨[runRow], [trRow]⟩ ⟨runRow, [trRow]⟩ = .ok
      (false, ⟨{ runRow with state := RunStatus.suspended }, [trRow]⟩,
       ⟨[{ runRow with state := RunStatus.suspended }], [trRow]⟩) ∧
     UpdateTaskRunResult ⟨[{ runRow with state := RunStatus.suspended }],
        [trRow]⟩ trRow.id result now = .ok
      (⟨{ runRow with state := RunStatus.running },
        [{ trRow with output := result.output, error := result.error,
                      finishedAt := some now }]⟩,
       true,
       ⟨[{ runRow with state := RunStatus.running }],
        [{ trRow with output := result.output, error := result.error,
                      finishedAt := some now }]⟩)) ∧
    (UpdateTaskRunResult ⟨[runRow], [trRow]⟩ trRow.id result now = .ok
      (⟨runRow, []⟩, false,
       ⟨[runRow],
        [{ trRow with output := result.output, error := result.error,
                      finishedAt := some now }]⟩) ∧
     StoreRun ⟨[runRow],
        [{ trRow with output := result.output, error := result.error,
                      finishedAt := some now }]⟩ ⟨runRow, [trRow]⟩ = .ok
      (true, ⟨runRow,
        [{ trRow with output := result.output, error := result.error,
                      finishedAt := some now }]⟩,
       ⟨[runRow],
        [{ trRow with output := result.output, error := result.error,
                      finishedAt := some now }]⟩)) := by
  obtain ⟨tid, tpr, ttype, tindex, tout, terr, tdot, tcreated, tfin⟩ := trRow
  obtain ⟨rid, rspec, rstate, rmeta, rinputs, routs, rfatal, rall, rcreated,
    rfin⟩ := runRow
  simp only at hstate hfin hrid hout herr htfin
  subst hstate hfin hrid hout herr htfin
  refine ⟨⟨?_, ?_⟩, ?_, ?_⟩
  · simp [StoreRun, swapPending, ByDotID, TaskRun.IsPending, upsertTaskRuns,
      upsertTaskRun, conflictUpdate, upsertMerge, sameTaskKey]
  · simp [UpdateTaskRunResult]
  · simp [UpdateTaskRunResult]
  · simp [StoreRun, swapPending, ByDotID, TaskRun.IsPending]

/-- Witness for C3 at a concrete run and task: the suspend-first order
suspends without dropping the pending row. -/
theorem StoreRun_UpdateTaskRunResult_race_witness :
    StoreRun ⟨[⟨10, 1, RunStatus.running, none, none, none, [], [], 1, none⟩],
        [⟨77, 10, "bridge", 0, none, none, "ds1", 1, none⟩]⟩
      ⟨⟨10, 1, RunStatus.running, none, none, none, [], [], 1, none⟩,
        [⟨77, 10, "bridge", 0, none, none, "ds1", 1, none⟩]⟩ = .ok
      (false,
       ⟨{ (⟨10, 1, RunStatus.running, none, none, none, [], [], 1, none⟩ :
            RunRow) with state := RunStatus.suspended },
        [⟨77, 10, "bridge", 0, none, none, "ds1", 1, none⟩]⟩,
       ⟨[{ (⟨10, 1, RunStatus.running, none, none, none, [], [], 1, none⟩ :
            RunRow) with state := RunStatus.suspended }],
        [⟨77, 10, "bridge", 0, none, none, "ds1", 1, none⟩]⟩) :=
  (StoreRun_UpdateTaskRunResult_race
      ⟨10, 1, RunStatus.running, none, none, none, [], [], 1, none⟩
      ⟨77, 10, "bridge", 0, none, none, "ds1", 1, none⟩
      ⟨some 42, none⟩ 9 rfl rfl rfl rfl rfl rfl).1.1

/-! ## C1 -/

/-- The swap C1 describes for one in-memory task run: if it is still pending
and its reloaded counterpart (by dot id) is no longer pending, the reloaded
copy replaces it. -/
def swapSpec (reloaded : List TaskRun) (tr : TaskRun) : TaskRun :=
  if tr.IsPending then
    match ByDotID reloaded tr.dotID with
    | some t => if !t.IsPending then t else tr
    | none => tr
  else tr

/-- Whether C1's swap fires for one in-memory task run. -/
def swapOccurs (reloaded : List TaskRun) (tr : TaskRun) : Bool :=
  tr.IsPending &&
    (match ByDotID reloaded tr.dotID with
     | some t => !t.IsPending
     | none => false)

/-- The reload-compare loop swaps elementwise and requests a restart exactly
when some swap fired. -/
theorem swapPending_eq (reloaded trs : List TaskRun) :
    swapPending reloaded trs =
      (trs.map (swapSpec reloaded), trs.any (swapOccurs reloaded)) := by
  induction trs with
  | nil => rfl
  | cons tr rest ih =>
    simp only [swapPending, ih, List.map_cons, List.any_cons]
    by_cases hp : tr.IsPending = true
    · cases hb : ByDotID reloaded tr.dotID with
      | none => simp [swapSpec, swapOccurs, hp, hb]
      | some t =>
        by_cases ht : t.IsPending = true
        · simp [swapSpec, swapOccurs, hp, hb, ht]
        · simp [swapSpec, swapOccurs, hp, hb, ht]
    · simp [swapSpec, swapOccurs, hp]

/-- C1's view of one `RETURNING` row of the upsert: the stored row with only
output, error and finish time taken from the incoming row, or the incoming
row itself when its key is new. -/
def upsertRowSpec (tbl : List TaskRun) (tr : TaskRun) : TaskRun :=
  match tbl.find? (fun ex => sameTaskKey ex tr) with
  | some ex => upsertMerge ex tr
  | none => tr

/-- C1's view of the task table after the upsert: stored rows whose
`(pipeline_run_id, dot_id)` key collides with an incoming row get only
output, error and finish time updated; incoming rows with fresh keys are
appended. -/
def upsertTableSpec (tbl incoming : List TaskRun) : List TaskRun :=
  (tbl.map fun ex =>
    match incoming.find? (fun tr => sameTaskKey ex tr) with
    | some tr => upsertMerge ex tr
    | none => ex) ++
  incoming.filter (fun tr => !tbl.any (fun ex => sameTaskKey ex tr))

/-- The table's unique constraint on `(pipeline_run_id, dot_id)`, and the dot
ids of a run's in-memory task list being distinct. -/
def TaskKeyUnique (l : List TaskRun) : Prop :=
  l.Pairwise (fun a b => sameTaskKey a b = false)

theorem sameTaskKey_true_iff (a b : TaskRun) :
    sameTaskKey a b = true ↔
      (a.pipelineRunID = b.pipelineRunID ∧ a.dotID = b.dotID) := by
  simp [sameTaskKey]

theorem sameTaskKey_trans {a b c : TaskRun} (h1 : sameTaskKey a b = true)
    (h2 : sameTaskKey b c = true) : sameTaskKey a c = true := by
  rw [sameTaskKey_true_iff] at h1 h2 ⊢
  exact ⟨h1.1.trans h2.1, h1.2.trans h2.2⟩

theorem sameTaskKey_symm {a b : TaskRun} (h : sameTaskKey a b = true) :
    sameTaskKey b a = true := by
  rw [sameTaskKey_true_iff] at h ⊢
  exact ⟨h.1.symm, h.2.symm⟩

theorem sameTaskKey_upsertMerge_left (a b c : TaskRun) :
    sameTaskKey (upsertMerge a b) c = sameTaskKey a c := rfl

theorem upsertMerge_upsertMerge (a b c : TaskRun) :
    upsertMerge (upsertMerge a b) c = upsertMerge a c := rfl

/-- The conflict arm never changes a row's key. -/
theorem sameTaskKey_conflictUpdate_left (tr t r : TaskRun) :
    sameTaskKey (conflictUpdate tr t) r = sameTaskKey t r := by
  unfold conflictUpdate
  by_cases h : sameTaskKey t tr = true
  · rw [if_pos h, sameTaskKey_upsertMerge_left]
  · rw [if_neg h]

theorem sameTaskKey_conflictUpdate_right (tr a b : TaskRun) :
    sameTaskKey a (conflictUpdate tr b) = sameTaskKey a b := by
  unfold conflictUpdate
  by_cases h : sameTaskKey b tr = true
  · rw [if_pos h]; rfl
  · rw [if_neg h]

theorem find?_map_conflictUpdate (tbl : List TaskRun) (tr r : TaskRun) :
    (tbl.map (conflictUpdate tr)).find? (fun ex => sameTaskKey ex r) =
      Option.map (conflictUpdate tr)
        (tbl.find? (fun ex => sameTaskKey ex r)) := by
  rw [List.find?_map]
  have hpred : ((fun ex => sameTaskKey ex r) ∘ conflictUpdate tr) =
      (fun ex : TaskRun => sameTaskKey ex r) :=
    funext fun ex => sameTaskKey_conflictUpdate_left tr ex r
  rw [hpred]

theorem any_map_conflictUpdate (tbl : List TaskRun) (tr t : TaskRun) :
    (tbl.map (conflictUpdate tr)).any (fun ex => sameTaskKey ex t) =
      tbl.any (fun ex => sameTaskKey ex t) := by
  rw [List.any_map]
  have hpred : ((fun ex => sameTaskKey ex t) ∘ conflictUpdate tr) =
      (fun ex : TaskRun => sameTaskKey ex t) :=
    funext fun ex => sameTaskKey_conflictUpdate_left tr ex t
  rw [hpred]

theorem taskKeyUnique_map_conflictUpdate {tbl : List TaskRun} (tr : TaskRun)
    (h : TaskKeyUnique tbl) : TaskKeyUnique (tbl.map (conflictUpdate tr)) := by
  unfold TaskKeyUnique at h ⊢
  rw [List.pairwise_map]
  refine h.imp ?_
  intro a b hab
  rw [sameTaskKey_conflictUpdate_left, sameTaskKey_conflictUpdate_right]
  exact hab

theorem taskKeyUnique_append_single {tbl : List TaskRun} {tr : TaskRun}
    (h : TaskKeyUnique tbl)
    (hfind : tbl.find? (fun ex => sameTaskKey ex tr) = none) :
    TaskKeyUnique (tbl ++ [tr]) := by
  unfold TaskKeyUnique at h ⊢
  rw [List.pairwise_append]
  refine ⟨h, List.pairwise_singleton _ _, ?_⟩
  intro a ha b hb
  rcases List.mem_singleton.mp hb with rfl
  cases hst : sameTaskKey a b
  · rfl
  · exact absurd hst (List.find?_eq_none.mp hfind a ha)

theorem upsertRowSpec_map_conflictUpdate (tbl : List TaskRun) (tr r : TaskRun) :
    upsertRowSpec (tbl.map (conflictUpdate tr)) r = upsertRowSpec tbl r := by
  unfold upsertRowSpec
  rw [find?_map_conflictUpdate]
  cases h : tbl.find? (fun ex => sameTaskKey ex r) with
  | none => rfl
  | some e =>
    show upsertMerge (conflictUpdate tr e) r = upsertMerge e r
    unfold conflictUpdate
    by_cases he : sameTaskKey e tr = true
    · rw [if_pos he, upsertMerge_upsertMerge]
    · rw [if_neg he]

theorem upsertRowSpec_append_single (tbl : List TaskRun) (tr r : TaskRun)
    (h : sameTaskKey tr r = false) :
    upsertRowSpec (tbl ++ [tr]) r = upsertRowSpec tbl r := by
  unfold upsertRowSpec
  rw [List.find?_append]
  have hone : [tr].find? (fun ex => sameTaskKey ex r) = none := by
    rw [List.find?_eq_none]
    intro x hx
    rcases List.mem_singleton.mp hx with rfl
    simp [h]
  rw [hone, Option.or_none]

theorem upsertTableSpec_step_conflict (tbl rest : List TaskRun)
    (tr ex0 : TaskRun)
    (hfind : tbl.find? (fun ex => sameTaskKey ex tr) = some ex0)
    (hhead : ∀ r ∈ rest, sameTaskKey tr r = false) :
    upsertTableSpec (tbl.map (conflictUpdate tr)) rest =
      upsertTableSpec tbl (tr :: rest) := by
  unfold upsertTableSpec
  congr 1
  · rw [List.map_map]
    apply List.map_congr_left
    intro ex _
    show (match rest.find? (fun t' => sameTaskKey (conflictUpdate tr ex) t') with
      | some t' => upsertMerge (conflictUpdate tr ex) t'
      | none => conflictUpdate tr ex) =
      (match (tr :: rest).find? (fun t' => sameTaskKey ex t') with
      | some t' => upsertMerge ex t'
      | none => ex)
    have hpred : (fun t' => sameTaskKey (conflictUpdate tr ex) t') =
        (fun t' => sameTaskKey ex t') :=
      funext fun t' => sameTaskKey_conflictUpdate_left tr ex t'
    rw [hpred]
    by_cases hex0 : sameTaskKey ex tr = true
    · have hrest_none : rest.find? (fun t' => sameTaskKey ex t') = none := by
        rw [List.find?_eq_none]
        intro r hr hc
        have htr : sameTaskKey tr r = true :=
          sameTaskKey_trans (sameTaskKey_symm hex0) hc
        rw [hhead r hr] at htr
        cases htr
      have hcons : (tr :: rest).find? (fun t' => sameTaskKey ex t') =
          some tr := by
        rw [List.find?_cons, hex0]
      rw [hrest_none, hcons]
      show conflictUpdate tr ex = upsertMerge ex tr
      unfold conflictUpdate
      rw [if_pos hex0]
    · have hex0f : sameTaskKey ex tr = false := by
        cases hst : sameTaskKey ex tr
        · rfl
        · exact absurd hst hex0
      have hcons : (tr :: rest).find? (fun t' => sameTaskKey ex t') =
          rest.find? (fun t' => sameTaskKey ex t') := by
        rw [List.find?_cons, hex0f]
      rw [hcons]
      cases h : rest.find? (fun t' => sameTaskKey ex t') with
      | none =>
        show conflictUpdate tr ex = ex
        unfold conflictUpdate
        rw [if_neg hex0]
      | some t' =>
        show upsertMerge (conflictUpdate tr ex) t' = upsertMerge ex t'
        unfold conflictUpdate
        rw [if_neg hex0]
  · have hp := @List.find?_some _ (fun ex => sameTaskKey ex tr) ex0 tbl hfind
    have hany : tbl.any (fun ex => sameTaskKey ex tr) = true :=
      List.any_eq_true.mpr ⟨ex0, List.mem_of_find?_eq_some hfind, hp⟩
    rw [List.filter_cons, if_neg (by simp [hany])]
    exact List.filter_congr fun t _ => by rw [any_map_conflictUpdate]

theorem upsertTableSpec_step_insert (tbl rest : List TaskRun) (tr : TaskRun)
    (hfind : tbl.find? (fun ex => sameTaskKey ex tr) = none)
    (hhead : ∀ r ∈ rest, sameTaskKey tr r = false) :
    upsertTableSpec (tbl ++ [tr]) rest = upsertTableSpec tbl (tr :: rest) := by
  have hno : ∀ ex ∈ tbl, sameTaskKey ex tr = false := by
    intro ex hex
    cases hst : sameTaskKey ex tr
    · rfl
    · exact absurd hst (List.find?_eq_none.mp hfind ex hex)
  unfold upsertTableSpec
  have hFtr : (match rest.find? (fun t' => sameTaskKey tr t') with
      | some t' => upsertMerge tr t'
      | none => tr) = tr := by
    have : rest.find? (fun t' => sameTaskKey tr t') = none := by
      rw [List.find?_eq_none]
      intro r hr hc
      rw [hhead r hr] at hc
      cases hc
    rw [this]
  have hanytr : tbl.any (fun ex => sameTaskKey ex tr) = false := by
    rw [List.any_eq_false]
    intro ex hex hc
    rw [hno ex hex] at hc
    cases hc
  rw [List.map_append, List.filter_cons, if_pos (by simp [hanytr])]
  rw [List.append_assoc]
  congr 1
  · apply List.map_congr_left
    intro ex hex
    show (match rest.find? (fun t' => sameTaskKey ex t') with
      | some t' => upsertMerge ex t'
      | none => ex) =
      (match (tr :: rest).find? (fun t' => sameTaskKey ex t') with
      | some t' => upsertMerge ex t'
      | none => ex)
    have hcons : (tr :: rest).find? (fun t' => sameTaskKey ex t') =
        rest.find? (fun t' => sameTaskKey ex t') := by
      rw [List.find?_cons, hno ex hex]
    rw [hcons]
  · show List.map _ [tr] ++ _ = tr :: _
    simp only [List.map_cons, List.map_nil, hFtr, List.singleton_append,
      List.cons.injEq]
    refine ⟨trivial, ?_⟩
    apply List.filter_congr
    intro t ht
    rw [List.any_append]
    have : [tr].any (fun ex => sameTaskKey ex t) = false := by
      rw [List.any_eq_false]
      intro x hx hc
      rcases List.mem_singleton.mp hx with rfl
      rw [hhead t ht] at hc
      cases hc
    rw [this, Bool.or_false]

/-- The sequential multi-row upsert equals C1's one-shot description: the
`RETURNING` rows are the per-row merge against the original table, and the
new table is map-update plus append — provided the stored table and the
incoming rows are each key-unique. -/
theorem upsertTaskRuns_spec (incoming : List TaskRun) :
    ∀ tbl : List TaskRun, TaskKeyUnique tbl → TaskKeyUnique incoming →
      upsertTaskRuns tbl incoming =
        (incoming.map (upsertRowSpec tbl), upsertTableSpec tbl incoming) := by
  induction incoming with
  | nil =>
    intro tbl _ _
    simp [upsertTaskRuns, upsertTableSpec]
  | cons tr rest ih =>
    intro tbl huniq hinc
    have hinc' : (tr :: rest).Pairwise (fun a b => sameTaskKey a b = false) :=
      hinc
    have hrest : TaskKeyUnique rest := (List.pairwise_cons.mp hinc').2
    have hhead : ∀ r ∈ rest, sameTaskKey tr r = false :=
      (List.pairwise_cons.mp hinc').1
    cases hfind : tbl.find? (fun ex => sameTaskKey ex tr) with
    | some ex0 =>
      have hTR : upsertTaskRun tbl tr =
          (upsertMerge ex0 tr, tbl.map (conflictUpdate tr)) := by
        unfold upsertTaskRun
        rw [hfind]
      have hu1 : TaskKeyUnique (tbl.map (conflictUpdate tr)) :=
        taskKeyUnique_map_conflictUpdate tr huniq
      have hIH := ih (tbl.map (conflictUpdate tr)) hu1 hrest
      simp only [upsertTaskRuns, hTR, hIH]
      refine Prod.ext ?_ ?_
      · show upsertMerge ex0 tr ::
            rest.map (upsertRowSpec (tbl.map (conflictUpdate tr))) =
          (tr :: rest).map (upsertRowSpec tbl)
        rw [List.map_cons]
        congr 1
        · unfold upsertRowSpec
          rw [hfind]
        · exact List.map_congr_left fun r _ =>
            upsertRowSpec_map_conflictUpdate tbl tr r
      · exact upsertTableSpec_step_conflict tbl rest tr ex0 hfind hhead
    | none =>
      have hTR : upsertTaskRun tbl tr = (tr, tbl ++ [tr]) := by
        unfold upsertTaskRun
        rw [hfind]
      have hu1 : TaskKeyUnique (tbl ++ [tr]) :=
        taskKeyUnique_append_single huniq hfind
      have hIH := ih (tbl ++ [tr]) hu1 hrest
      simp only [upsertTaskRuns, hTR, hIH]
      refine Prod.ext ?_ ?_
      · show tr :: rest.map (upsertRowSpec (tbl ++ [tr])) =
          (tr :: rest).map (upsertRowSpec tbl)
        rw [List.map_cons]
        congr 1
        · unfold upsertRowSpec
          rw [hfind]
        · exact List.map_congr_left fun r hr =>
            upsertRowSpec_append_single tbl tr r (hhead r hr)
      · exact upsertTableSpec_step_insert tbl rest tr hfind hhead

/-- C1: for every run whose finish time is unset, `StoreRun` reloads the
persisted task rows of the run; when some in-memory pending task's reloaded
counterpart is no longer pending it swaps the reloaded copies into the
in-memory run and returns `restart = true` with no write at all (no Suspended
state, no upsert); otherwise it writes state = Suspended on the run row and
upserts all task rows keyed by `(pipeline_run_id, dot_id)`, updating only
output, error and finish time on conflict.  The key-uniqueness hypotheses are
the table's unique constraint and the per-run uniqueness of dot ids. -/
theorem StoreRun_unfinished_spec (db : PipelineDB) (run : Run)
    (hfin : run.finishedAt = none)
    (hdb : TaskKeyUnique db.taskRuns)
    (hrun : TaskKeyUnique run.pipelineTaskRuns) :
    (run.pipelineTaskRuns.any (swapOccurs
        (db.taskRuns.filter fun t => t.pipelineRunID == run.id)) = true →
      StoreRun db run = .ok
        (true,
         { run with pipelineTaskRuns := run.pipelineTaskRuns.map (swapSpec
             (db.taskRuns.filter fun t => t.pipelineRunID == run.id)) },
         db)) ∧
    (run.pipelineTaskRuns.any (swapOccurs
        (db.taskRuns.filter fun t => t.pipelineRunID == run.id)) = false →
      StoreRun db run = .ok
        (false,
         { run with state := RunStatus.suspended,
                    pipelineTaskRuns := run.pipelineTaskRuns.map
                      (upsertRowSpec db.taskRuns) },
         ⟨db.runs.map fun r => if r.id == run.id then
            { r with state := RunStatus.suspended } else r,
          upsertTableSpec db.taskRuns run.pipelineTaskRuns⟩)) := by
  have hnotfin : run.finishedAt.isSome = false := by rw [hfin]; rfl
  constructor
  · intro hany
    simp only [StoreRun, hnotfin, Bool.false_eq_true, if_false, swapPending_eq,
      hany, if_true]
  · intro hany
    simp only [StoreRun, hnotfin, Bool.false_eq_true, if_false, swapPending_eq,
      hany, Bool.true_eq_false, upsertTaskRuns_spec run.pipelineTaskRuns
        db.taskRuns hdb hrun]

/-- Witness for C1: a concurrently completed task row makes `StoreRun` swap
it in and request a restart without writing. -/
theorem StoreRun_unfinished_spec_witness :
    StoreRun
      ⟨[], [⟨77, 10, "bridge", 0, some 42, none, "ds1", 1, some 9⟩]⟩
      ⟨⟨10, 1, RunStatus.running, none, none, none, [], [], 1, none⟩,
        [⟨77, 10, "bridge", 0, none, none, "ds1", 1, none⟩]⟩ = .ok
      (true,
       { (⟨⟨10, 1, RunStatus.running, none, none, none, [], [], 1, none⟩,
          [⟨77, 10, "bridge", 0, none, none, "ds1", 1, none⟩]⟩ : Run) with
         pipelineTaskRuns :=
           [(⟨77, 10, "bridge", 0, none, none, "ds1", 1, none⟩ :
              TaskRun)].map (swapSpec
             (([⟨77, 10, "bridge", 0, some 42, none, "ds1", 1, some 9⟩] :
               List TaskRun).filter fun t => t.pipelineRunID == 10)) },
       ⟨[], [⟨77, 10, "bridge", 0, some 42, none, "ds1", 1, some 9⟩]⟩) :=
  (StoreRun_unfinished_spec
      ⟨[], [⟨77, 10, "bridge", 0, some 42, none, "ds1", 1, some 9⟩]⟩
      ⟨⟨10, 1, RunStatus.running, none, none, none, [], [], 1, none⟩,
        [⟨77, 10, "bridge", 0, none, none, "ds1", 1, none⟩]⟩
      rfl (List.pairwise_singleton _ _) (List.pairwise_singleton _ _)).1
    (by decide)

end Chainlink
